import Mathlib

/-!
Shallow embedding of `src/traceTM_newdrop.py`, a breadth-first simulator for
nondeterministic Turing machines.

Modelling conventions: Python strings (states, tape halves) become `String`
and `List Char`; the caller-supplied limits `max_depth`/`max_steps` become
`Int`, since the Python code accepts any integer there; the run's printed
trace becomes the `Outcome` type; the `ZeroDivisionError` that Python can
raise inside `print_accept_path` becomes the error side of `Except PyError`.
The simulator also exposes its final configuration tree, which the Python
code keeps in the local `config_tree`.
-/

deriving instance DecidableEq for Except

inductive Move where
  | L
  | R
deriving DecidableEq, Repr

/-- A configuration `[tape_left, current_state, tape_right]` as in `execute`:
the head reads the first character of `right` (blank `'_'` when empty). -/
structure Config where
  left : List Char
  state : String
  right : List Char
deriving DecidableEq, Repr

/-- The machine description consumed by `execute`: the rule table of
`NonDeterministicTM.__init__` (a mapping `(state, symbol)` to an ordered
rule list, here an association list) plus the distinguished states. -/
structure NonDeterministicTM where
  rules : List ((String × Char) × List (String × Char × Move))
  start : String
  accept : String
  reject : String
deriving DecidableEq, Repr

/-- Rule lookup, `self.rules.get((current_state, current_symbol), [])`. -/
def getRules (M : NonDeterministicTM) (s : String) (c : Char) :
    List (String × Char × Move) :=
  match M.rules.find? (fun r => r.1 == (s, c)) with
  | some r => r.2
  | none => []

/-- Reading the head symbol: `tape_right[0] if tape_right else "_"`. -/
def headSymbol : List Char → Char
  | [] => '_'
  | c :: _ => c

/-- Writing the head cell: `new_right[0] = write_symbol` when `right` is
non-empty, `new_right.append(write_symbol)` when it is empty. -/
def writeHead (tapeRight : List Char) (w : Char) : List Char :=
  match tapeRight with
  | [] => [w]
  | _ :: rest => w :: rest

/-- Applying one rule `(next_state, write_symbol, direction)` to the tape
halves, lines 82-104 of the source: write the head cell, then move left
(pop the last character of `left`, or a blank, and prepend it to `right`)
or right (pop the head of `right` onto `left`, re-appending a blank when
`right` becomes empty). -/
def applyTransition (tapeLeft tapeRight : List Char)
    (tr : String × Char × Move) : Config :=
  match tr.2.2 with
  | Move.L =>
    match tapeLeft.getLast? with
    | none => ⟨tapeLeft, tr.1, '_' :: writeHead tapeRight tr.2.1⟩
    | some c => ⟨tapeLeft.dropLast, tr.1, c :: writeHead tapeRight tr.2.1⟩
  | Move.R =>
    match writeHead tapeRight tr.2.1 with
    | [] => ⟨tapeLeft, tr.1, ['_']⟩
    | c :: [] => ⟨tapeLeft ++ [c], tr.1, ['_']⟩
    | c :: rest => ⟨tapeLeft ++ [c], tr.1, rest⟩

/-- The two ways the inner `for` loop of `execute` can abort the whole run:
acceptance (line 55) or the transition budget being exceeded (line 69).
Each carries the value of `steps_count` at that moment. -/
inductive LevelHalt where
  | accepted (stepsCount : Nat)
  | transLimit (stepsCount : Nat)
deriving DecidableEq, Repr

/-- One pass of the inner `for` loop of `execute` over `current_level`,
threading `steps_count` and accumulating `next_level`. -/
def processLevel (M : NonDeterministicTM) (limit : Int) :
    List Config → Nat → List Config → LevelHalt ⊕ (Nat × List Config)
  | [], stepsCount, nextLevel => Sum.inr (stepsCount, nextLevel)
  | cfg :: rest, stepsCount, nextLevel =>
    if cfg.state = M.accept then
      Sum.inl (LevelHalt.accepted stepsCount)
    else if cfg.state = M.reject then
      processLevel M limit rest stepsCount nextLevel
    else if (stepsCount + 1 : Int) > limit then
      Sum.inl (LevelHalt.transLimit (stepsCount + 1))
    else if getRules M cfg.state (headSymbol cfg.right) = [] then
      processLevel M limit rest (stepsCount + 1)
        (nextLevel ++ [⟨cfg.left, M.reject, cfg.right⟩])
    else
      processLevel M limit rest (stepsCount + 1)
        (nextLevel ++
          (getRules M cfg.state (headSymbol cfg.right)).map
            (applyTransition cfg.left cfg.right))

/-- The Python-level failure a run can raise (division by zero at line 132
of the source, `num_configs/depth`). -/
inductive PyError where
  | zeroDivisionError
deriving DecidableEq, Repr

/-- What a run of `execute` prints before returning, as a value: the first
three variants also report the quantities printed at lines 57-59, 112-113,
118-119 of the source.  `depthLimitExceeded` reports `self.depth_limit`
itself and `transitionLimitExceeded` reports `self.transition_limit`
itself, exactly as the corresponding print statements do. -/
inductive Outcome where
  | accepted (transitionsCount : Nat) (depth : Nat) (numConfigs : Nat)
      (averageBranching : ℚ)
  | rejected (depth : Nat) (transitionsCount : Nat)
  | depthLimitExceeded (depth : Int) (transitionsCount : Nat)
  | transitionLimitExceeded (transitionsCount : Int)
  | noPath
deriving DecidableEq, Repr

/-- The acceptance report of `print_accept_path`: count every configuration
in levels `0..depth` of the tree, then compute `num_configs/depth`.  The
Python true division raises `ZeroDivisionError` when `depth == 0`; that is
the error case. -/
def print_accept_path (tree : List (List Config)) (depth : Nat) :
    Except PyError (Nat × ℚ) :=
  let numConfigs := ((tree.take (depth + 1)).map List.length).sum
  if depth = 0 then Except.error PyError.zeroDivisionError
  else Except.ok (numConfigs, (numConfigs : ℚ) / (depth : ℚ))

/-- Final value of `steps_count` in the result of `processLevel`. -/
def resultSteps : LevelHalt ⊕ (Nat × List Config) → Nat
  | Sum.inl (LevelHalt.accepted s) => s
  | Sum.inl (LevelHalt.transLimit s) => s
  | Sum.inr (s, _) => s

def processLevel_steps_le (M : NonDeterministicTM) (limit : Int)
    (level : List Config) : ∀ (sc : Nat) (nl : List Config),
    sc ≤ resultSteps (processLevel M limit level sc nl) := by
  induction level with
  | nil => intro sc nl; simp [processLevel, resultSteps]
  | cons cfg rest ih =>
    intro sc nl
    simp only [processLevel]
    split
    · simp [resultSteps]
    · split
      · exact ih sc nl
      · split
        · simp [resultSteps]
        · split
          · exact le_trans (Nat.le_succ sc) (ih (sc + 1) _)
          · exact le_trans (Nat.le_succ sc) (ih (sc + 1) _)

def processLevel_inr_stuck (M : NonDeterministicTM) (limit : Int)
    (level : List Config) : ∀ (sc : Nat) (nl out : List Config),
    processLevel M limit level sc nl = Sum.inr (sc, out) → out = nl := by
  induction level with
  | nil =>
    intro sc nl out h
    simp only [processLevel, Sum.inr.injEq, Prod.mk.injEq, true_and] at h
    exact h.symm
  | cons cfg rest ih =>
    intro sc nl out h
    simp only [processLevel] at h
    split at h
    · exact absurd h (by simp)
    · split at h
      · exact ih sc nl out h
      · split at h
        · exact absurd h (by simp)
        · split at h
          · have hle := processLevel_steps_le M limit rest (sc + 1)
              (nl ++ [⟨cfg.left, M.reject, cfg.right⟩])
            rw [h] at hle
            simp [resultSteps] at hle
          · have hle := processLevel_steps_le M limit rest (sc + 1)
              (nl ++ (getRules M cfg.state (headSymbol cfg.right)).map
                (applyTransition cfg.left cfg.right))
            rw [h] at hle
            simp [resultSteps] at hle

/-- The `while` loop of `execute` (lines 50-122 of the source).  Each round
processes the last level `config_tree[-1]`, appends the non-empty
`next_level`, checks the depth limit, checks whether every configuration of
`next_level` rejects, and otherwise loops.  The loop runs while the tree is
non-empty and `steps_count < self.transition_limit`; leaving it prints
`No valid paths found`.  The returned pair is (what the run reports, the
final `config_tree`). -/
def execLoop (M : NonDeterministicTM) (maxDepth maxSteps : Int)
    (tree : List (List Config)) (stepsCount : Nat) :
    Except PyError Outcome × List (List Config) :=
  if h : tree ≠ [] ∧ (stepsCount : Int) < maxSteps then
    match hp : processLevel M maxSteps tree.getLast! stepsCount [] with
    | Sum.inl (LevelHalt.accepted s) =>
      match print_accept_path tree (tree.length - 1) with
      | Except.error e => (Except.error e, tree)
      | Except.ok (n, avg) =>
        (Except.ok (Outcome.accepted s (tree.length - 1) n avg), tree)
    | Sum.inl (LevelHalt.transLimit _) =>
      (Except.ok (Outcome.transitionLimitExceeded maxSteps), tree)
    | Sum.inr (stepsCount', nextLevel) =>
      if hd : ((if nextLevel = [] then tree else tree ++ [nextLevel]).length : Int)
          > maxDepth then
        (Except.ok (Outcome.depthLimitExceeded maxDepth stepsCount'),
         if nextLevel = [] then tree else tree ++ [nextLevel])
      else if hr : nextLevel.all (fun c => c.state == M.reject) then
        (Except.ok (Outcome.rejected
            ((if nextLevel = [] then tree else tree ++ [nextLevel]).length - 1)
            stepsCount'),
         if nextLevel = [] then tree else tree ++ [nextLevel])
      else
        execLoop M maxDepth maxSteps
          (if nextLevel = [] then tree else tree ++ [nextLevel]) stepsCount'
  else (Except.ok Outcome.noPath, tree)
termination_by (maxSteps - stepsCount).toNat
decreasing_by
  have hne : nextLevel ≠ [] := by
    intro hnil
    rw [hnil] at hr
    simp at hr
  have hgt : stepsCount < stepsCount' := by
    have hle := processLevel_steps_le M maxSteps tree.getLast! stepsCount []
    rw [hp] at hle
    simp only [resultSteps] at hle
    rcases Nat.lt_or_ge stepsCount stepsCount' with hlt | hge
    · exact hlt
    · have heq : stepsCount' = stepsCount := le_antisymm hge hle
      rw [heq] at hp
      exact absurd (processLevel_inr_stuck M maxSteps tree.getLast!
        stepsCount [] nextLevel hp) hne
  omega

/-- The engine entry point `execute(self, input_data, max_depth, max_steps)`:
initialize the tree with the single level `[["", self.start, input_data]]`
and `steps_count = 0`, then run the while loop. -/
def execute (M : NonDeterministicTM) (inputData : List Char)
    (maxDepth maxSteps : Int) : Except PyError Outcome × List (List Config) :=
  execLoop M maxDepth maxSteps [[⟨[], M.start, inputData⟩]] 0

/-- Scenario A machine: the single rule `(q0,'0') -> (qa,'1',R)` with
start `q0`, accept `qa`, reject `qr`. -/
def machineIncrement : NonDeterministicTM :=
  ⟨[(("q0", '0'), [("qa", '1', Move.R)])], "q0", "qa", "qr"⟩

/-- Scenario B machine: no rules at all; start `q0`, accept `qa`,
reject `qr`. -/
def machineStuck : NonDeterministicTM := ⟨[], "q0", "qa", "qr"⟩

/-- Scenario C machine: the single looping rule `(q0,'a') -> (q0,'a',R)`. -/
def machineLoop : NonDeterministicTM :=
  ⟨[(("q0", 'a'), [("q0", 'a', Move.R)])], "q0", "qa", "qr"⟩

/-- Scenario D machine, accepting rule first: `(q0,'a')` maps to
`(qa,'a',R)` then `(q0,'a',R)`. -/
def machineRaceAccFirst : NonDeterministicTM :=
  ⟨[(("q0", 'a'), [("qa", 'a', Move.R), ("q0", 'a', Move.R)])],
   "q0", "qa", "qr"⟩

/-- Scenario D machine, looping rule first: `(q0,'a')` maps to
`(q0,'a',R)` then `(qa,'a',R)`. -/
def machineRaceLoopFirst : NonDeterministicTM :=
  ⟨[(("q0", 'a'), [("q0", 'a', Move.R), ("qa", 'a', Move.R)])],
   "q0", "qa", "qr"⟩

/-- A machine whose start state is its accept state. -/
def machineStartAccept : NonDeterministicTM := ⟨[], "q0", "q0", "qr"⟩

/-- Depth figure printed by a halting branch of `execute`: `len(tree)-1` for
acceptance (line 58) and rejection (lines 118-119), `self.depth_limit` for
the depth-limit halt (line 113).  The transition-limit halt and the
`No valid paths found` exit print no depth. -/
def reportedDepth : Outcome → Option Int
  | Outcome.accepted _ d _ _ => some (d : Int)
  | Outcome.rejected d _ => some (d : Int)
  | Outcome.depthLimitExceeded d _ => some d
  | Outcome.transitionLimitExceeded _ => none
  | Outcome.noPath => none

/-- Transition count printed by a halting branch of `execute`:
`steps_count` at lines 57, 113 and 119, `self.transition_limit` at
line 70.  The `No valid paths found` exit prints no count. -/
def reportedTransitions : Outcome → Option Int
  | Outcome.accepted s _ _ _ => some (s : Int)
  | Outcome.rejected _ s => some (s : Int)
  | Outcome.depthLimitExceeded _ s => some (s : Int)
  | Outcome.transitionLimitExceeded t => some t
  | Outcome.noPath => none

/-- Whether a run report is the depth-limit halt of lines 111-114. -/
def isDepthLimit : Except PyError Outcome → Bool
  | Except.ok (Outcome.depthLimitExceeded _ _) => true
  | _ => false


theorem processLevel_accepted_le (M : NonDeterministicTM) (limit : Int)
    (level : List Config) : ∀ (sc : Nat) (nl : List Config) (s : Nat),
    (sc : Int) ≤ limit →
    processLevel M limit level sc nl = Sum.inl (LevelHalt.accepted s) →
    (s : Int) ≤ limit := by
  induction level with
  | nil => intro sc nl s _ h; simp [processLevel] at h
  | cons cfg rest ih =>
    intro sc nl s hsc h
    simp only [processLevel] at h
    split at h
    · simp only [Sum.inl.injEq, LevelHalt.accepted.injEq] at h
      omega
    · split at h
      · exact ih sc nl s hsc h
      · split at h
        · simp at h
        · rename_i hlim
          split at h
          · exact ih (sc + 1) _ s (by omega) h
          · exact ih (sc + 1) _ s (by omega) h

theorem processLevel_inr_le (M : NonDeterministicTM) (limit : Int)
    (level : List Config) : ∀ (sc : Nat) (nl : List Config) (s : Nat)
    (out : List Config),
    (sc : Int) ≤ limit →
    processLevel M limit level sc nl = Sum.inr (s, out) →
    (s : Int) ≤ limit := by
  induction level with
  | nil =>
    intro sc nl s out hsc h
    simp only [processLevel, Sum.inr.injEq, Prod.mk.injEq] at h
    omega
  | cons cfg rest ih =>
    intro sc nl s out hsc h
    simp only [processLevel] at h
    split at h
    · simp at h
    · split at h
      · exact ih sc nl s out hsc h
      · split at h
        · simp at h
        · rename_i hlim
          split at h
          · exact ih (sc + 1) _ s out (by omega) h
          · exact ih (sc + 1) _ s out (by omega) h

theorem execLoop_exit (M : NonDeterministicTM) (maxDepth maxSteps : Int)
    (tree : List (List Config)) (sc : Nat)
    (h : ¬(tree ≠ [] ∧ (sc : Int) < maxSteps)) :
    execLoop M maxDepth maxSteps tree sc = (Except.ok Outcome.noPath, tree) := by
  rw [execLoop.eq_def]
  exact dif_neg h

theorem execLoop_cont (M : NonDeterministicTM) (maxDepth maxSteps : Int)
    (tree : List (List Config)) (sc : Nat)
    (h1 : tree ≠ []) (h2 : (sc : Int) < maxSteps)
    (sc' : Nat) (nl : List Config)
    (hp : processLevel M maxSteps tree.getLast! sc [] = Sum.inr (sc', nl))
    (hd : ¬(((if nl = [] then tree else tree ++ [nl]).length : Int) > maxDepth))
    (hr : ¬(nl.all (fun c => c.state == M.reject) = true)) :
    execLoop M maxDepth maxSteps tree sc =
      execLoop M maxDepth maxSteps
        (if nl = [] then tree else tree ++ [nl]) sc' := by
  rw [execLoop.eq_def, dif_pos ⟨h1, h2⟩]
  split
  · rename_i s heq
    rw [hp] at heq
    exact absurd heq (by simp)
  · rename_i s heq
    rw [hp] at heq
    exact absurd heq (by simp)
  · rename_i s nl2 heq
    rw [hp] at heq
    simp only [Sum.inr.injEq, Prod.mk.injEq] at heq
    obtain ⟨hs, hn⟩ := heq
    subst hs
    subst hn
    rw [dif_neg hd, dif_neg hr]

theorem execLoop_halt_accept_err (M : NonDeterministicTM)
    (maxDepth maxSteps : Int) (tree : List (List Config)) (sc : Nat)
    (h1 : tree ≠ []) (h2 : (sc : Int) < maxSteps) (s : Nat)
    (hp : processLevel M maxSteps tree.getLast! sc [] =
      Sum.inl (LevelHalt.accepted s)) (e : PyError)
    (hrep : print_accept_path tree (tree.length - 1) = Except.error e) :
    execLoop M maxDepth maxSteps tree sc = (Except.error e, tree) := by
  rw [execLoop.eq_def, dif_pos ⟨h1, h2⟩]
  split
  · rename_i s2 heq
    rw [hp] at heq
    simp only [Sum.inl.injEq, LevelHalt.accepted.injEq] at heq
    subst heq
    rw [hrep]
  · rename_i s2 heq
    rw [hp] at heq
    exact absurd heq (by simp)
  · rename_i s2 nl2 heq
    rw [hp] at heq
    exact absurd heq (by simp)

theorem execLoop_halt_accept_ok (M : NonDeterministicTM)
    (maxDepth maxSteps : Int) (tree : List (List Config)) (sc : Nat)
    (h1 : tree ≠ []) (h2 : (sc : Int) < maxSteps) (s : Nat)
    (hp : processLevel M maxSteps tree.getLast! sc [] =
      Sum.inl (LevelHalt.accepted s)) (n : Nat) (avg : ℚ)
    (hrep : print_accept_path tree (tree.length - 1) = Except.ok (n, avg)) :
    execLoop M maxDepth maxSteps tree sc =
      (Except.ok (Outcome.accepted s (tree.length - 1) n avg), tree) := by
  rw [execLoop.eq_def, dif_pos ⟨h1, h2⟩]
  split
  · rename_i s2 heq
    rw [hp] at heq
    simp only [Sum.inl.injEq, LevelHalt.accepted.injEq] at heq
    subst heq
    rw [hrep]
  · rename_i s2 heq
    rw [hp] at heq
    exact absurd heq (by simp)
  · rename_i s2 nl2 heq
    rw [hp] at heq
    exact absurd heq (by simp)

theorem execLoop_halt_transLimit (M : NonDeterministicTM)
    (maxDepth maxSteps : Int) (tree : List (List Config)) (sc : Nat)
    (h1 : tree ≠ []) (h2 : (sc : Int) < maxSteps) (s : Nat)
    (hp : processLevel M maxSteps tree.getLast! sc [] =
      Sum.inl (LevelHalt.transLimit s)) :
    execLoop M maxDepth maxSteps tree sc =
      (Except.ok (Outcome.transitionLimitExceeded maxSteps), tree) := by
  rw [execLoop.eq_def, dif_pos ⟨h1, h2⟩]
  split
  · rename_i s2 heq
    rw [hp] at heq
    exact absurd heq (by simp)
  · rfl
  · rename_i s2 nl2 heq
    rw [hp] at heq
    exact absurd heq (by simp)

theorem execLoop_halt_depth (M : NonDeterministicTM)
    (maxDepth maxSteps : Int) (tree : List (List Config)) (sc : Nat)
    (h1 : tree ≠ []) (h2 : (sc : Int) < maxSteps)
    (sc' : Nat) (nl : List Config)
    (hp : processLevel M maxSteps tree.getLast! sc [] = Sum.inr (sc', nl))
    (hd : ((if nl = [] then tree else tree ++ [nl]).length : Int) > maxDepth) :
    execLoop M maxDepth maxSteps tree sc =
      (Except.ok (Outcome.depthLimitExceeded maxDepth sc'),
       if nl = [] then tree else tree ++ [nl]) := by
  rw [execLoop.eq_def, dif_pos ⟨h1, h2⟩]
  split
  · rename_i s2 heq
    rw [hp] at heq
    exact absurd heq (by simp)
  · rename_i s2 heq
    rw [hp] at heq
    exact absurd heq (by simp)
  · rename_i s2 nl2 heq
    rw [hp] at heq
    simp only [Sum.inr.injEq, Prod.mk.injEq] at heq
    obtain ⟨hs, hn⟩ := heq
    subst hs
    subst hn
    rw [dif_pos hd]

theorem execLoop_halt_reject (M : NonDeterministicTM)
    (maxDepth maxSteps : Int) (tree : List (List Config)) (sc : Nat)
    (h1 : tree ≠ []) (h2 : (sc : Int) < maxSteps)
    (sc' : Nat) (nl : List Config)
    (hp : processLevel M maxSteps tree.getLast! sc [] = Sum.inr (sc', nl))
    (hd : ¬(((if nl = [] then tree else tree ++ [nl]).length : Int) > maxDepth))
    (hr : nl.all (fun c => c.state == M.reject) = true) :
    execLoop M maxDepth maxSteps tree sc =
      (Except.ok (Outcome.rejected
          ((if nl = [] then tree else tree ++ [nl]).length - 1) sc'),
       if nl = [] then tree else tree ++ [nl]) := by
  rw [execLoop.eq_def, dif_pos ⟨h1, h2⟩]
  split
  · rename_i s2 heq
    rw [hp] at heq
    exact absurd heq (by simp)
  · rename_i s2 heq
    rw [hp] at heq
    exact absurd heq (by simp)
  · rename_i s2 nl2 heq
    rw [hp] at heq
    simp only [Sum.inr.injEq, Prod.mk.injEq] at heq
    obtain ⟨hs, hn⟩ := heq
    subst hs
    subst hn
    rw [dif_neg hd, dif_pos hr]

theorem run_scenarioA :
    execute machineIncrement ['0'] 10 10 =
      (Except.ok (Outcome.accepted 1 1 2 2),
       [[⟨[], "q0", ['0']⟩], [⟨['1'], "qa", ['_']⟩]]) := by
  have s1 := execLoop_cont machineIncrement 10 10 [[⟨[], "q0", ['0']⟩]] 0
    (by decide) (by decide) 1 [⟨['1'], "qa", ['_']⟩]
    (by decide) (by decide) (by decide)
  have s2 := execLoop_halt_accept_ok machineIncrement 10 10
    [[⟨[], "q0", ['0']⟩], [⟨['1'], "qa", ['_']⟩]] 1
    (by decide) (by decide) 1 (by decide) 2 2 (by norm_num [print_accept_path])
  exact (s1.trans s2).trans (by norm_num)

theorem run_scenarioB :
    execute machineStuck [] 100 1000 =
      (Except.ok (Outcome.rejected 1 1),
       [[⟨[], "q0", []⟩], [⟨[], "qr", []⟩]]) := by
  have s1 := execLoop_halt_reject machineStuck 100 1000 [[⟨[], "q0", []⟩]] 0
    (by decide) (by decide) 1 [⟨[], "qr", []⟩]
    (by decide) (by decide) (by decide)
  exact s1.trans (by decide)

theorem run_loopDepth1 :
    execute machineLoop ['a'] 1 100 =
      (Except.ok (Outcome.depthLimitExceeded 1 1),
       [[⟨[], "q0", ['a']⟩], [⟨['a'], "q0", ['_']⟩]]) := by
  have s1 := execLoop_halt_depth machineLoop 1 100 [[⟨[], "q0", ['a']⟩]] 0
    (by decide) (by decide) 1 [⟨['a'], "q0", ['_']⟩]
    (by decide) (by decide)
  exact s1.trans (by decide)

theorem run_raceAccFirst :
    execute machineRaceAccFirst ['a'] 100 1000 =
      (Except.ok (Outcome.accepted 1 1 3 3),
       [[⟨[], "q0", ['a']⟩],
        [⟨['a'], "qa", ['_']⟩, ⟨['a'], "q0", ['_']⟩]]) := by
  have s1 := execLoop_cont machineRaceAccFirst 100 1000 [[⟨[], "q0", ['a']⟩]] 0
    (by decide) (by decide) 1 [⟨['a'], "qa", ['_']⟩, ⟨['a'], "q0", ['_']⟩]
    (by decide) (by decide) (by decide)
  have s2 := execLoop_halt_accept_ok machineRaceAccFirst 100 1000
    [[⟨[], "q0", ['a']⟩], [⟨['a'], "qa", ['_']⟩, ⟨['a'], "q0", ['_']⟩]] 1
    (by decide) (by decide) 1 (by decide) 3 3 (by norm_num [print_accept_path])
  exact (s1.trans s2).trans (by norm_num)

theorem run_raceLoopFirst :
    execute machineRaceLoopFirst ['a'] 100 1000 =
      (Except.ok (Outcome.accepted 2 1 3 3),
       [[⟨[], "q0", ['a']⟩],
        [⟨['a'], "q0", ['_']⟩, ⟨['a'], "qa", ['_']⟩]]) := by
  have s1 := execLoop_cont machineRaceLoopFirst 100 1000 [[⟨[], "q0", ['a']⟩]] 0
    (by decide) (by decide) 1 [⟨['a'], "q0", ['_']⟩, ⟨['a'], "qa", ['_']⟩]
    (by decide) (by decide) (by decide)
  have s2 := execLoop_halt_accept_ok machineRaceLoopFirst 100 1000
    [[⟨[], "q0", ['a']⟩], [⟨['a'], "q0", ['_']⟩, ⟨['a'], "qa", ['_']⟩]] 1
    (by decide) (by decide) 2 (by decide) 3 3 (by norm_num [print_accept_path])
  exact (s1.trans s2).trans (by norm_num)

theorem run_startAccept :
    execute machineStartAccept [] 10 10 =
      (Except.error PyError.zeroDivisionError, [[⟨[], "q0", []⟩]]) := by
  have s1 := execLoop_halt_accept_err machineStartAccept 10 10
    [[⟨[], "q0", []⟩]] 0 (by decide) (by decide) 0 (by decide)
    PyError.zeroDivisionError (by decide)
  exact s1

theorem run_stuck_negative :
    execute machineStuck [] (-1) (-1) =
      (Except.ok Outcome.noPath, [[⟨[], "q0", []⟩]]) := by
  exact execLoop_exit machineStuck (-1) (-1) [[⟨[], "q0", []⟩]] 0 (by decide)

theorem run_loop_negDepth :
    execute machineLoop ['a'] (-1) 100 =
      (Except.ok (Outcome.depthLimitExceeded (-1) 1),
       [[⟨[], "q0", ['a']⟩], [⟨['a'], "q0", ['_']⟩]]) := by
  have s1 := execLoop_halt_depth machineLoop (-1) 100 [[⟨[], "q0", ['a']⟩]] 0
    (by decide) (by decide) 1 [⟨['a'], "q0", ['_']⟩]
    (by decide) (by decide)
  exact s1.trans (by decide)


theorem print_accept_path_ok_pos (tree : List (List Config)) (dep n : Nat)
    (avg : ℚ) (h : print_accept_path tree dep = Except.ok (n, avg)) :
    0 < dep := by
  rcases Nat.eq_zero_or_pos dep with h0 | h0
  · subst h0
    simp [print_accept_path] at h
  · exact h0

theorem execLoop_reportedDepth_le (M : NonDeterministicTM)
    (maxDepth maxSteps : Int) : ∀ (tree : List (List Config)) (sc : Nat),
    (tree.length = 1 ∨ (tree.length : Int) ≤ maxDepth) →
    ∀ (o : Outcome) (d : Int),
    (execLoop M maxDepth maxSteps tree sc).1 = Except.ok o →
    reportedDepth o = some d → d ≤ maxDepth := by
  intro tree sc
  induction tree, sc using execLoop.induct M maxDepth maxSteps with
  | case1 tree sc h s hp e hrep =>
    intro hinv o d hok hd
    rw [execLoop_halt_accept_err M maxDepth maxSteps tree sc h.1 h.2 s hp
      e hrep] at hok
    simp at hok
  | case2 tree sc h s hp n avg hrep =>
    intro hinv o d hok hd
    rw [execLoop_halt_accept_ok M maxDepth maxSteps tree sc h.1 h.2 s hp
      n avg hrep] at hok
    simp only [Except.ok.injEq] at hok
    subst hok
    simp only [reportedDepth, Option.some.injEq] at hd
    subst hd
    have hpos := print_accept_path_ok_pos tree (tree.length - 1) n avg hrep
    have hlen : tree.length = 1 → False := by omega
    rcases hinv with h1 | h1
    · exact absurd h1 hlen
    · omega
  | case3 tree sc h s2 hp =>
    intro hinv o d hok hd
    rw [execLoop_halt_transLimit M maxDepth maxSteps tree sc h.1 h.2
      s2 hp] at hok
    simp only [Except.ok.injEq] at hok
    subst hok
    simp [reportedDepth] at hd
  | case4 tree sc h sc' nl hp hdp =>
    intro hinv o d hok hd
    rw [execLoop_halt_depth M maxDepth maxSteps tree sc h.1 h.2 sc' nl
      hp hdp] at hok
    simp only [Except.ok.injEq] at hok
    subst hok
    simp only [reportedDepth, Option.some.injEq] at hd
    omega
  | case5 tree sc h sc' nl hp hdp hrej =>
    intro hinv o d hok hd
    rw [execLoop_halt_reject M maxDepth maxSteps tree sc h.1 h.2 sc' nl
      hp hdp hrej] at hok
    simp only [Except.ok.injEq] at hok
    subst hok
    simp only [reportedDepth, Option.some.injEq] at hd
    subst hd
    have hdp2 : ¬(((if nl = [] then tree else tree ++ [nl]).length : Int)
        > maxDepth) := hdp
    have hlen : 1 ≤ (if nl = [] then tree else tree ++ [nl]).length := by
      have := h.1
      split
      · exact List.length_pos.mpr this
      · simp
    omega
  | case6 tree sc h sc' nl hp hdp hrej ih =>
    intro hinv o d hok hd
    rw [execLoop_cont M maxDepth maxSteps tree sc h.1 h.2 sc' nl
      hp hdp hrej] at hok
    exact ih (Or.inr (by omega)) o d hok hd
  | case7 tree sc h =>
    intro hinv o d hok hd
    rw [execLoop_exit M maxDepth maxSteps tree sc h] at hok
    simp only [Except.ok.injEq] at hok
    subst hok
    simp [reportedDepth] at hd

theorem execLoop_reportedTrans_le (M : NonDeterministicTM)
    (maxDepth maxSteps : Int) : ∀ (tree : List (List Config)) (sc : Nat),
    ∀ (o : Outcome) (t : Int),
    (execLoop M maxDepth maxSteps tree sc).1 = Except.ok o →
    reportedTransitions o = some t → t ≤ maxSteps := by
  intro tree sc
  induction tree, sc using execLoop.induct M maxDepth maxSteps with
  | case1 tree sc h s hp e hrep =>
    intro o t hok ht
    rw [execLoop_halt_accept_err M maxDepth maxSteps tree sc h.1 h.2 s hp
      e hrep] at hok
    simp at hok
  | case2 tree sc h s hp n avg hrep =>
    intro o t hok ht
    rw [execLoop_halt_accept_ok M maxDepth maxSteps tree sc h.1 h.2 s hp
      n avg hrep] at hok
    simp only [Except.ok.injEq] at hok
    subst hok
    simp only [reportedTransitions, Option.some.injEq] at ht
    subst ht
    exact processLevel_accepted_le M maxSteps tree.getLast! sc [] s
      (le_of_lt h.2) hp
  | case3 tree sc h s2 hp =>
    intro o t hok ht
    rw [execLoop_halt_transLimit M maxDepth maxSteps tree sc h.1 h.2
      s2 hp] at hok
    simp only [Except.ok.injEq] at hok
    subst hok
    simp only [reportedTransitions, Option.some.injEq] at ht
    omega
  | case4 tree sc h sc' nl hp hdp =>
    intro o t hok ht
    rw [execLoop_halt_depth M maxDepth maxSteps tree sc h.1 h.2 sc' nl
      hp hdp] at hok
    simp only [Except.ok.injEq] at hok
    subst hok
    simp only [reportedTransitions, Option.some.injEq] at ht
    subst ht
    exact processLevel_inr_le M maxSteps tree.getLast! sc [] sc' nl
      (le_of_lt h.2) hp
  | case5 tree sc h sc' nl hp hdp hrej =>
    intro o t hok ht
    rw [execLoop_halt_reject M maxDepth maxSteps tree sc h.1 h.2 sc' nl
      hp hdp hrej] at hok
    simp only [Except.ok.injEq] at hok
    subst hok
    simp only [reportedTransitions, Option.some.injEq] at ht
    subst ht
    exact processLevel_inr_le M maxSteps tree.getLast! sc [] sc' nl
      (le_of_lt h.2) hp
  | case6 tree sc h sc' nl hp hdp hrej ih =>
    intro o t hok ht
    rw [execLoop_cont M maxDepth maxSteps tree sc h.1 h.2 sc' nl
      hp hdp hrej] at hok
    exact ih o t hok ht
  | case7 tree sc h =>
    intro o t hok ht
    rw [execLoop_exit M maxDepth maxSteps tree sc h] at hok
    simp only [Except.ok.injEq] at hok
    subst hok
    simp [reportedTransitions] at ht

theorem execLoop_depthLimit_iff (M : NonDeterministicTM)
    (maxDepth maxSteps : Int) : ∀ (tree : List (List Config)) (sc : Nat),
    tree ≠ [] → (tree.length : Int) ≤ maxDepth →
    (isDepthLimit (execLoop M maxDepth maxSteps tree sc).1 = true ↔
      maxDepth < ((execLoop M maxDepth maxSteps tree sc).2.length : Int)) := by
  intro tree sc
  induction tree, sc using execLoop.induct M maxDepth maxSteps with
  | case1 tree sc h s hp e hrep =>
    intro hne hinv
    rw [execLoop_halt_accept_err M maxDepth maxSteps tree sc h.1 h.2 s hp
      e hrep]
    simp only [isDepthLimit]
    constructor
    · intro hfalse
      exact absurd hfalse (by simp)
    · intro hlt
      exact absurd hlt (by omega)
  | case2 tree sc h s hp n avg hrep =>
    intro hne hinv
    rw [execLoop_halt_accept_ok M maxDepth maxSteps tree sc h.1 h.2 s hp
      n avg hrep]
    simp only [isDepthLimit]
    constructor
    · intro hfalse
      exact absurd hfalse (by simp)
    · intro hlt
      exact absurd hlt (by omega)
  | case3 tree sc h s2 hp =>
    intro hne hinv
    rw [execLoop_halt_transLimit M maxDepth maxSteps tree sc h.1 h.2 s2 hp]
    simp only [isDepthLimit]
    constructor
    · intro hfalse
      exact absurd hfalse (by simp)
    · intro hlt
      exact absurd hlt (by omega)
  | case4 tree sc h sc' nl hp hdp =>
    intro hne hinv
    rw [execLoop_halt_depth M maxDepth maxSteps tree sc h.1 h.2 sc' nl hp hdp]
    have hdp2 : maxDepth <
        (((if nl = [] then tree else tree ++ [nl]).length : Nat) : Int) := hdp
    simp only [isDepthLimit]
    constructor
    · intro _
      exact hdp2
    · intro _
      trivial
  | case5 tree sc h sc' nl hp hdp hrej =>
    intro hne hinv
    rw [execLoop_halt_reject M maxDepth maxSteps tree sc h.1 h.2 sc' nl
      hp hdp hrej]
    have hdp2 : ¬(maxDepth <
        (((if nl = [] then tree else tree ++ [nl]).length : Nat) : Int)) := hdp
    simp only [isDepthLimit]
    constructor
    · intro hfalse
      exact absurd hfalse (by simp)
    · intro hlt
      exact absurd hlt hdp2
  | case6 tree sc h sc' nl hp hdp hrej ih =>
    intro hne hinv
    rw [execLoop_cont M maxDepth maxSteps tree sc h.1 h.2 sc' nl hp hdp hrej]
    have hne2 : (if nl = [] then tree else tree ++ [nl]) ≠ [] := by
      split
      · exact h.1
      · simp
    exact ih hne2 (by omega)
  | case7 tree sc h =>
    intro hne hinv
    rw [execLoop_exit M maxDepth maxSteps tree sc h]
    simp only [isDepthLimit]
    constructor
    · intro hfalse
      exact absurd hfalse (by simp)
    · intro hlt
      exact absurd hlt (by omega)

/-- C1: the spec requires `run` to be total on valid inputs and, when
acceptance is found at depth 0 (start state equals accept state), to report
`average_branching` as undefined rather than dividing by zero.  The code
violates this: `print_accept_path` computes `num_configs/depth` with
`depth = 0`, so the run raises `ZeroDivisionError` instead of returning an
`Outcome`.  This theorem evaluates the engine at such a machine and shows
the run ends in the division-by-zero error. -/
theorem claim_C1_accept_depth0_raises :
    execute machineStartAccept [] 10 10 =
      (Except.error PyError.zeroDivisionError, [[⟨[], "q0", []⟩]]) :=
  run_startAccept

/-- C2 counterexample: with `max_depth = 1`, the looping machine on input
`"a"` halts with `DepthLimitExceeded` although its tree holds only
2 = `max_depth + 1` levels, which does not exceed `max_depth + 1`.  This
refutes the claim that no `DepthLimitExceeded` halt occurs while the tree
holds `max_depth + 1` or fewer levels. -/
theorem claim_C2_counterexample :
    (execute machineLoop ['a'] 1 100).1 =
      Except.ok (Outcome.depthLimitExceeded 1 1) ∧
    ((execute machineLoop ['a'] 1 100).2.length : Int) ≤ 1 + 1 := by
  rw [run_loopDepth1]
  exact ⟨rfl, by norm_num⟩

/-- C2 (amended): for `max_depth ≥ 1`, the run halts with
`DepthLimitExceeded` exactly when the configuration tree's length exceeds
`max_depth` (not `max_depth + 1`) after a level is appended; while the tree
holds `max_depth` or fewer levels, no `DepthLimitExceeded` halt occurs. -/
theorem claim_C2_amended_depth_halt_iff (M : NonDeterministicTM)
    (input : List Char) (maxDepth maxSteps : Int) (h : 1 ≤ maxDepth) :
    isDepthLimit (execute M input maxDepth maxSteps).1 = true ↔
      maxDepth < ((execute M input maxDepth maxSteps).2.length : Int) :=
  execLoop_depthLimit_iff M maxDepth maxSteps [[⟨[], M.start, input⟩]] 0
    (by simp) (by simpa using h)

/-- C2 witness: the amended statement at the concrete depth-limited run. -/
theorem claim_C2_amended_witness :
    (1 : Int) ≤ 1 ∧ isDepthLimit (execute machineLoop ['a'] 1 100).1 = true :=
  ⟨le_refl 1,
   (claim_C2_amended_depth_halt_iff machineLoop ['a'] 1 100 (le_refl 1)).mpr
     (by rw [run_loopDepth1]; norm_num)⟩

/-- C3: every `Outcome` variant that reports a tree depth (`Accepted`,
`Rejected`, `DepthLimitExceeded`) reports a depth that never exceeds
`max_depth`. -/
theorem claim_C3_reported_depth_le (M : NonDeterministicTM)
    (input : List Char) (maxDepth maxSteps : Int) (o : Outcome) (d : Int)
    (hok : (execute M input maxDepth maxSteps).1 = Except.ok o)
    (hd : reportedDepth o = some d) : d ≤ maxDepth :=
  execLoop_reportedDepth_le M maxDepth maxSteps [[⟨[], M.start, input⟩]] 0
    (Or.inl (by simp)) o d hok hd

/-- C3 witness: the accepting run of the Scenario A machine reports
depth 1, which is at most `max_depth = 10`. -/
theorem claim_C3_witness :
    (execute machineIncrement ['0'] 10 10).1 =
      Except.ok (Outcome.accepted 1 1 2 2) ∧ (1 : Int) ≤ 10 :=
  ⟨by rw [run_scenarioA],
   claim_C3_reported_depth_le machineIncrement ['0'] 10 10
     (Outcome.accepted 1 1 2 2) 1 (by rw [run_scenarioA]) rfl⟩

/-- C4: `transitions_consumed` is monotonically non-decreasing (the inner
loop only ever increases `steps_count`) and the count reported by any
`Outcome` never exceeds `max_transitions`. -/
theorem claim_C4_transitions_monotone_bounded :
    (∀ (M : NonDeterministicTM) (limit : Int) (level : List Config)
      (sc : Nat) (nl : List Config),
      sc ≤ resultSteps (processLevel M limit level sc nl)) ∧
    (∀ (M : NonDeterministicTM) (input : List Char) (maxDepth maxSteps : Int)
      (o : Outcome) (t : Int),
      (execute M input maxDepth maxSteps).1 = Except.ok o →
      reportedTransitions o = some t → t ≤ maxSteps) :=
  ⟨fun M limit level sc nl => processLevel_steps_le M limit level sc nl,
   fun M input maxDepth maxSteps o t hok ht =>
     execLoop_reportedTrans_le M maxDepth maxSteps [[⟨[], M.start, input⟩]] 0
       o t hok ht⟩

/-- C4 witness: at the Scenario A run the counter starts at 0 and the
reported count 1 is at most `max_transitions = 10`. -/
theorem claim_C4_witness :
    0 ≤ resultSteps (processLevel machineIncrement 10
      [⟨[], "q0", ['0']⟩] 0 []) ∧ (1 : Int) ≤ 10 :=
  ⟨claim_C4_transitions_monotone_bounded.1 machineIncrement 10
      [⟨[], "q0", ['0']⟩] 0 [],
   claim_C4_transitions_monotone_bounded.2 machineIncrement ['0'] 10 10
      (Outcome.accepted 1 1 2 2) 1 (by rw [run_scenarioA]) rfl⟩

/-- C5 counterexample: called with negative limits the engine does not
signal any `InvalidArgument` failure; it runs and produces ordinary
`Outcome` variants (`NoPath` when `max_transitions < 0`, and for example
`DepthLimitExceeded` when only `max_depth` is negative). -/
theorem claim_C5_counterexample :
    (execute machineStuck [] (-1) (-1)).1 = Except.ok Outcome.noPath ∧
    (execute machineLoop ['a'] (-1) 100).1 =
      Except.ok (Outcome.depthLimitExceeded (-1) 1) := by
  rw [run_stuck_negative, run_loop_negDepth]
  exact ⟨rfl, rfl⟩

/-- C5 (amended): the engine performs no validation of its limits and has
no `InvalidArgument` failure.  With a negative `max_transitions` the while
loop never runs and `run` returns `NoPath` with the tree still holding only
the initial configuration; with a negative `max_depth` alone it runs and
halts through the ordinary limit checks. -/
theorem claim_C5_amended_no_validation (M : NonDeterministicTM)
    (input : List Char) (maxDepth maxSteps : Int) (h : maxSteps < 0) :
    execute M input maxDepth maxSteps =
      (Except.ok Outcome.noPath, [[⟨[], M.start, input⟩]]) :=
  execLoop_exit M maxDepth maxSteps [[⟨[], M.start, input⟩]] 0
    (by rintro ⟨-, hlt⟩; omega)

/-- C5 witness: the amended statement at concrete negative limits. -/
theorem claim_C5_witness :
    (-1 : Int) < 0 ∧ execute machineStuck [] (-1) (-1) =
      (Except.ok Outcome.noPath, [[⟨[], "q0", []⟩]]) :=
  ⟨by norm_num,
   claim_C5_amended_no_validation machineStuck [] (-1) (-1) (by norm_num)⟩

/-- C6: the stuck machine (no rule for `(q0, blank)`) on the empty input
yields at depth 1 exactly one synthesized configuration in the reject state
with the tape unchanged, and the run halts `Rejected` at depth 1 with
`transitions_consumed = 1`. -/
theorem claim_C6_stuck_machine_rejected :
    execute machineStuck [] 100 1000 =
      (Except.ok (Outcome.rejected 1 1),
       [[⟨[], "q0", []⟩], [⟨[], "qr", []⟩]]) :=
  run_scenarioB

/-- C7: with two rules for `(q0,'a')`, one to the accept state and one
looping back to `q0`, the run on `"a"` returns `Accepted` at depth 1 for
both rule orders: the accepting configuration is seen when its level is
examined, before being expanded. -/
theorem claim_C7_branching_race :
    (execute machineRaceAccFirst ['a'] 100 1000).1 =
      Except.ok (Outcome.accepted 1 1 3 3) ∧
    (execute machineRaceLoopFirst ['a'] 100 1000).1 =
      Except.ok (Outcome.accepted 2 1 3 3) := by
  rw [run_raceAccFirst, run_raceLoopFirst]
  exact ⟨rfl, rfl⟩

/-- C8: the engine is deterministic: two invocations of `run` with
identical arguments produce identical results (the embedding of `execute`
is a pure function of its arguments, reflecting that the source's loop is
single-threaded and draws on no randomness or hidden state). -/
theorem claim_C8_deterministic (M : NonDeterministicTM) (input : List Char)
    (maxDepth maxSteps : Int) :
    execute M input maxDepth maxSteps = execute M input maxDepth maxSteps :=
  rfl

/-- C9: every configuration produced by applying a transition rule has a
non-empty right tape: the write step makes `right` non-empty, a Left move
prepends a character, and a Right move re-appends a blank whenever `right`
would become empty. -/
theorem claim_C9_right_tape_nonempty (tapeLeft tapeRight : List Char)
    (tr : String × Char × Move) :
    (applyTransition tapeLeft tapeRight tr).right.isEmpty = false := by
  obtain ⟨ns, w, mv⟩ := tr
  cases mv
  · cases h : tapeLeft.getLast?
    · simp [applyTransition, h]
    · simp [applyTransition, h]
  · cases tapeRight with
    | nil => simp [applyTransition, writeHead]
    | cons c rest =>
      cases rest with
      | nil => simp [applyTransition, writeHead]
      | cons d rest2 => simp [applyTransition, writeHead]

/-- C10: with `max_transitions = 0` the run returns `NoPath` for every
machine and input (including one whose start state equals its accept
state), because the while-loop condition `steps_count < max_transitions`
fails immediately and the loop body never executes. -/
theorem claim_C10_zero_transitions_noPath (M : NonDeterministicTM)
    (input : List Char) (maxDepth : Int) :
    execute M input maxDepth 0 =
      (Except.ok Outcome.noPath, [[⟨[], M.start, input⟩]]) :=
  execLoop_exit M maxDepth 0 [[⟨[], M.start, input⟩]] 0
    (by rintro ⟨-, hlt⟩; omega)
